import Mathlib

/-!
# Verification of the `bun-cache` key-value cache (`src/index.ts`)

The repository implements a small TTL cache (`BunCache`) over a SQLite table
`cache(key TEXT PRIMARY KEY, value TEXT, ttl INTEGER)`.  This file gives a
shallow embedding of the four public operations `get`, `put`, `delete` and
`hasKey` and of the two external collaborators they use:

* the SQLite table, modelled as an association list from keys to rows
  (`value : Option String`, `ttl : Option Int`), with an explicit boolean
  oracle on each operation saying whether the underlying storage call throws
  (the code wraps some, not all, storage calls in `try/catch`);
* the JavaScript JSON built-ins `JSON.stringify` / `JSON.parse`, modelled by
  an executable encoder and parser over a concrete value type `JsValue`.
  JSON numbers are modelled as integers (IEEE floats are out of scope);
  `JSON.parse` is modelled without insignificant whitespace, which is enough
  for every property below because the only parses that matter are parses of
  encoder output and the success/failure case split.

Machine timestamps (`Date.now()`, the stored `ttl` column) are integers in
milliseconds and are passed to each operation explicitly.
-/

/-- A JavaScript runtime value, restricted to what survives JSON
serialization: `null`, booleans, (integer) numbers, strings, arrays and
string-keyed objects. -/
inductive JsValue where
  | jnull
  | jbool (b : Bool)
  | jnum (n : Int)
  | jstr (s : String)
  | jarr (elems : List JsValue)
  | jobj (fields : List (String × JsValue))
deriving Repr

/-- JavaScript truthiness of a `JsValue` (`value ? … : …` in `put`):
`null`, `false`, `0` and `""` are falsy, everything else (including every
object and array) is truthy. -/
def JsValue.truthy : JsValue → Bool
  | .jnull => false
  | .jbool b => b
  | .jnum n => n != 0
  | .jstr s => s != ""
  | .jarr _ => true
  | .jobj _ => true

/-- `true` exactly on the values admitted by the TypeScript parameter type
`string | object | null` of `put`: strings, arrays/objects, and `null`. -/
def JsValue.isPutArg : JsValue → Bool
  | .jstr _ => true
  | .jarr _ => true
  | .jobj _ => true
  | .jnull => true
  | _ => false

/-- `true` exactly on structured values (the TypeScript `object` type:
arrays and objects). -/
def JsValue.isStructured : JsValue → Bool
  | .jarr _ => true
  | .jobj _ => true
  | _ => false

/-! ## `JSON.stringify`, modelled -/

/-- The decimal digit character of `d` (for `d ≤ 9`). -/
def digitChar : Nat → Char
  | 0 => '0' | 1 => '1' | 2 => '2' | 3 => '3' | 4 => '4'
  | 5 => '5' | 6 => '6' | 7 => '7' | 8 => '8' | 9 => '9'
  | _ => '0'

/-- The lowercase hexadecimal digit character of `d` (for `d ≤ 15`),
as produced inside a `\u00XX` escape. -/
def lhexChar : Nat → Char
  | 0 => '0' | 1 => '1' | 2 => '2' | 3 => '3' | 4 => '4'
  | 5 => '5' | 6 => '6' | 7 => '7' | 8 => '8' | 9 => '9'
  | 10 => 'a' | 11 => 'b' | 12 => 'c' | 13 => 'd' | 14 => 'e' | 15 => 'f'
  | _ => '0'

/-- Decimal digits of `n`, most significant first.  Fuel-indexed so that it
reduces definitionally; `n + 1` units of fuel always suffice. -/
def natCharsF : Nat → Nat → List Char
  | 0, _ => []
  | fuel + 1, n =>
    if n < 10 then [digitChar n]
    else natCharsF fuel (n / 10) ++ [digitChar (n % 10)]

/-- Decimal digits of `n`, most significant first. -/
def natChars (n : Nat) : List Char := natCharsF (n + 1) n

/-- The characters `JSON.stringify` emits for an integer: an optional minus
sign followed by decimal digits. -/
def intChars (i : Int) : List Char :=
  if i < 0 then '-' :: natChars i.natAbs else natChars i.natAbs

/-- The escape `JSON.stringify` applies to one character inside a string
literal: `\"`, `\\`, short escapes for the common control characters, a
`\u00XX` escape for the remaining control characters, and every other
character unchanged. -/
def escChar (c : Char) : List Char :=
  if c = '"' then ['\\', '"']
  else if c = '\\' then ['\\', '\\']
  else if c = '\n' then ['\\', 'n']
  else if c = '\t' then ['\\', 't']
  else if c = '\r' then ['\\', 'r']
  else if c = '\x08' then ['\\', 'b']
  else if c = '\x0c' then ['\\', 'f']
  else if c.toNat < 32 then
    ['\\', 'u', '0', '0', lhexChar (c.toNat / 16), lhexChar (c.toNat % 16)]
  else [c]

/-- The body of a JSON string literal: each character escaped. -/
def escBody (cs : List Char) : List Char := cs.foldr (fun c r => escChar c ++ r) []

/-- A JSON string literal: quote, escaped body, quote. -/
def strLit (s : String) : List Char := '"' :: (escBody s.data ++ ['"'])

mutual

/-- The characters of `JSON.stringify v` (compact form, no whitespace). -/
def jsonChars : JsValue → List Char
  | .jnull => ['n', 'u', 'l', 'l']
  | .jbool true => ['t', 'r', 'u', 'e']
  | .jbool false => ['f', 'a', 'l', 's', 'e']
  | .jnum n => intChars n
  | .jstr s => strLit s
  | .jarr es => '[' :: (jsonCharsArr es ++ [']'])
  | .jobj fs => '\x7b' :: (jsonCharsObj fs ++ ['\x7d'])

/-- Comma-separated encodings of array elements. -/
def jsonCharsArr : List JsValue → List Char
  | [] => []
  | [e] => jsonChars e
  | e :: es => jsonChars e ++ ',' :: jsonCharsArr es

/-- Comma-separated `"key":value` encodings of object fields. -/
def jsonCharsObj : List (String × JsValue) → List Char
  | [] => []
  | [(k, v)] => strLit k ++ ':' :: jsonChars v
  | (k, v) :: fs => strLit k ++ ':' :: jsonChars v ++ ',' :: jsonCharsObj fs

end

/-- `JSON.stringify`, modelled (total on `JsValue`). -/
def jsonStringify (v : JsValue) : String := ⟨jsonChars v⟩

example : jsonStringify (.jobj [("a", .jnum 1)]) = "\x7b\"a\":1\x7d" := rfl
example : jsonStringify (.jstr "plain") = "\"plain\"" := rfl
example : jsonStringify (.jarr [.jnum (-5), .jnull, .jbool true]) = "[-5,null,true]" := rfl

/-! ## `JSON.parse`, modelled -/

/-- The value of a hexadecimal digit character, either case. -/
def hexVal (c : Char) : Option Nat :=
  if '0' ≤ c ∧ c ≤ '9' then some (c.toNat - 48)
  else if 'a' ≤ c ∧ c ≤ 'f' then some (c.toNat - 97 + 10)
  else if 'A' ≤ c ∧ c ≤ 'F' then some (c.toNat - 65 + 10)
  else none

/-- The character denoted by a one-letter escape after a backslash. -/
def unescChar (e : Char) : Option Char :=
  if e = '"' ∨ e = '\\' ∨ e = '/' then some e
  else if e = 'n' then some '\n'
  else if e = 't' then some '\t'
  else if e = 'r' then some '\r'
  else if e = 'b' then some '\x08'
  else if e = 'f' then some '\x0c'
  else none

/-- Parse the body of a string literal (input starts just after the opening
quote); returns the decoded characters and the input after the closing
quote.  Unescaped control characters are rejected, as in JSON. -/
def parseStrBody : List Char → Option (List Char × List Char)
  | [] => none
  | '"' :: rest => some ([], rest)
  | '\\' :: 'u' :: a :: b :: c :: d :: rest =>
    match hexVal a, hexVal b, hexVal c, hexVal d with
    | some va, some vb, some vc, some vd =>
      (parseStrBody rest).map fun p =>
        (Char.ofNat (((va * 16 + vb) * 16 + vc) * 16 + vd) :: p.1, p.2)
    | _, _, _, _ => none
  | '\\' :: e :: rest =>
    match unescChar e with
    | some ch => (parseStrBody rest).map fun p => (ch :: p.1, p.2)
    | none => none
  | c :: rest =>
    if c.toNat < 32 then none
    else (parseStrBody rest).map fun p => (c :: p.1, p.2)

/-- Consume a maximal run of decimal digits, MSD-first into `acc`. -/
def parseDigits (acc : Nat) : List Char → Nat × List Char
  | [] => (acc, [])
  | c :: rest =>
    if c.isDigit then parseDigits (acc * 10 + (c.toNat - 48)) rest
    else (acc, c :: rest)

/-- Parse an integer JSON number: optional minus sign, then at least one
decimal digit (maximal munch). -/
def parseIntNum : List Char → Option (Int × List Char)
  | [] => none
  | c :: rest =>
    if c = '-' then
      match rest with
      | [] => none
      | d :: _ =>
        if d.isDigit then
          let p := parseDigits 0 rest
          some (-(p.1 : Int), p.2)
        else none
    else if c.isDigit then
      let p := parseDigits 0 (c :: rest)
      some ((p.1 : Int), p.2)
    else none

mutual

/-- Parse one JSON value; `fuel` bounds the recursion and one unit more than
the input length always suffices. -/
def parseVal : Nat → List Char → Option (JsValue × List Char)
  | 0, _ => none
  | _ + 1, [] => none
  | fuel + 1, c :: rest =>
    if c = 'n' then
      match rest with
      | 'u' :: 'l' :: 'l' :: r => some (.jnull, r)
      | _ => none
    else if c = 't' then
      match rest with
      | 'r' :: 'u' :: 'e' :: r => some (.jbool true, r)
      | _ => none
    else if c = 'f' then
      match rest with
      | 'a' :: 'l' :: 's' :: 'e' :: r => some (.jbool false, r)
      | _ => none
    else if c = '"' then
      (parseStrBody rest).map fun p => (.jstr ⟨p.1⟩, p.2)
    else if c = '[' then
      if rest.head? = some ']' then some (.jarr [], rest.tail)
      else (parseElems fuel rest).map fun p => (.jarr p.1, p.2)
    else if c = '\x7b' then
      if rest.head? = some '\x7d' then some (.jobj [], rest.tail)
      else (parseFields fuel rest).map fun p => (.jobj p.1, p.2)
    else if c = '-' ∨ c.isDigit then
      (parseIntNum (c :: rest)).map fun p => (.jnum p.1, p.2)
    else none

/-- Parse one or more comma-separated array elements up to the closing
bracket. -/
def parseElems : Nat → List Char → Option (List JsValue × List Char)
  | 0, _ => none
  | fuel + 1, input =>
    match parseVal fuel input with
    | none => none
    | some (v, rest) =>
      match rest with
      | ',' :: r => (parseElems fuel r).map fun p => (v :: p.1, p.2)
      | ']' :: r => some ([v], r)
      | _ => none

/-- Parse one or more comma-separated `"key":value` fields up to the closing
brace. -/
def parseFields : Nat → List Char → Option (List (String × JsValue) × List Char)
  | 0, _ => none
  | fuel + 1, input =>
    match input with
    | '"' :: rest =>
      match parseStrBody rest with
      | none => none
      | some (k, r1) =>
        match r1 with
        | ':' :: r2 =>
          match parseVal fuel r2 with
          | none => none
          | some (v, r3) =>
            match r3 with
            | ',' :: r4 => (parseFields fuel r4).map fun p => ((⟨k⟩, v) :: p.1, p.2)
            | '\x7d' :: r4 => some ([(⟨k⟩, v)], r4)
            | _ => none
        | _ => none
    | _ => none

end

/-- `JSON.parse`, modelled: parse the whole input, `none` on any failure
(in the code the corresponding exception is caught by `get`). -/
def jsonParse (s : String) : Option JsValue :=
  match parseVal (s.data.length + 1) s.data with
  | some (v, []) => some v
  | _ => none

example : jsonParse "\x7b\"a\":1\x7d" = some (.jobj [("a", .jnum 1)]) := rfl
example : jsonParse "\"plain\"" = some (.jstr "plain") := rfl
example : jsonParse "[-5,null,true]" = some (.jarr [.jnum (-5), .jnull, .jbool true]) := rfl
example : jsonParse "plain" = none := rfl
example : jsonParse "" = none := rfl

/-! ## Round-trip: `jsonParse (jsonStringify v) = some v`

`get` decodes what `put` stored; this section proves the decoding inverts
the encoding, which backs every "`get` returns the value that was `put`"
claim. -/

/-- Input that cannot extend a decimal digit run: empty or headed by a
non-digit.  Every delimiter the encoder emits after a number qualifies. -/
def noDigitHead : List Char → Bool
  | [] => true
  | c :: _ => !c.isDigit

theorem digitChar_isDigit (d : Nat) : (digitChar d).isDigit = true := by
  by_cases h : d < 10
  · interval_cases d <;> decide
  · obtain ⟨e, rfl⟩ : ∃ e, d = e + 10 := ⟨d - 10, by omega⟩
    rfl

theorem digitChar_toNat (d : Nat) (h : d < 10) : (digitChar d).toNat = 48 + d := by
  interval_cases d <;> decide

theorem natCharsF_fuel (n : Nat) : ∀ f₁ f₂ : Nat, n < f₁ → n < f₂ →
    natCharsF f₁ n = natCharsF f₂ n := by
  induction n using Nat.strong_induction_on with
  | _ n ih =>
    intro f₁ f₂ h₁ h₂
    match f₁, f₂ with
    | a + 1, b + 1 =>
      by_cases h10 : n < 10
      · simp [natCharsF, h10]
      · have hdiv : n / 10 < n := Nat.div_lt_self (by omega) (by omega)
        simp only [natCharsF, if_neg h10]
        rw [ih (n / 10) hdiv a b (by omega) (by omega)]

theorem natCharsF_succ (fuel n : Nat) :
    natCharsF (fuel + 1) n
      = if n < 10 then [digitChar n] else natCharsF fuel (n / 10) ++ [digitChar (n % 10)] :=
  rfl

theorem natChars_small {n : Nat} (h : n < 10) : natChars n = [digitChar n] := by
  rw [natChars, natCharsF_succ, if_pos h]

theorem natChars_step {n : Nat} (h : ¬ n < 10) :
    natChars n = natChars (n / 10) ++ [digitChar (n % 10)] := by
  have hdiv : n / 10 < n := Nat.div_lt_self (by omega) (by omega)
  rw [natChars, natCharsF_succ, if_neg h,
    natCharsF_fuel (n / 10) n (n / 10 + 1) (by omega) (by omega)]
  rfl

theorem natChars_all_digit (n : Nat) : ∀ c ∈ natChars n, c.isDigit = true := by
  induction n using Nat.strong_induction_on with
  | _ n ih =>
    by_cases h10 : n < 10
    · rw [natChars_small h10]
      intro c hc
      rw [List.mem_singleton] at hc
      exact hc ▸ digitChar_isDigit n
    · rw [natChars_step h10]
      intro c hc
      rcases List.mem_append.mp hc with hl | hr
      · exact ih (n / 10) (Nat.div_lt_self (by omega) (by omega)) c hl
      · rw [List.mem_singleton] at hr
        exact hr ▸ digitChar_isDigit (n % 10)

theorem natChars_cons (n : Nat) : ∃ c t, natChars n = c :: t ∧ c.isDigit = true := by
  by_cases h10 : n < 10
  · exact ⟨digitChar n, [], natChars_small h10, digitChar_isDigit n⟩
  · rw [natChars_step h10]
    obtain ⟨c, t, hct, hc⟩ : ∃ c t, natChars (n / 10) = c :: t ∧ c.isDigit = true := by
      have := natChars_all_digit (n / 10)
      match h : natChars (n / 10) with
      | [] =>
        exfalso
        by_cases h10' : n / 10 < 10
        · rw [natChars_small h10'] at h; cases h
        · rw [natChars_step h10'] at h; simp at h
      | c :: t => exact ⟨c, t, rfl, this c (h ▸ List.mem_cons_self c t)⟩
    exact ⟨c, t ++ [digitChar (n % 10)], by rw [hct]; rfl, hc⟩

theorem parseDigits_stop {rest : List Char} (acc : Nat) (h : noDigitHead rest = true) :
    parseDigits acc rest = (acc, rest) := by
  match rest with
  | [] => rfl
  | c :: r =>
    simp only [noDigitHead, Bool.not_eq_true'] at h
    simp [parseDigits, h]

theorem parseDigits_cons_digit {c : Char} (hc : c.isDigit = true) (acc : Nat)
    (rest : List Char) :
    parseDigits acc (c :: rest) = parseDigits (acc * 10 + (c.toNat - 48)) rest := by
  simp [parseDigits, hc]

theorem parseDigits_run (n : Nat) : ∀ acc rest,
    parseDigits acc (natChars n ++ rest)
      = parseDigits (acc * 10 ^ (natChars n).length + n) rest := by
  induction n using Nat.strong_induction_on with
  | _ n ih =>
    intro acc rest
    by_cases h10 : n < 10
    · rw [natChars_small h10, List.singleton_append, List.length_singleton,
        parseDigits_cons_digit (digitChar_isDigit n), digitChar_toNat n h10]
      congr 1
      rw [pow_one]
      omega
    · have hdiv : n / 10 < n := Nat.div_lt_self (by omega) (by omega)
      have hmod : n % 10 < 10 := Nat.mod_lt _ (by omega)
      rw [natChars_step h10, List.append_assoc, List.singleton_append,
        ih (n / 10) hdiv acc (digitChar (n % 10) :: rest),
        parseDigits_cons_digit (digitChar_isDigit (n % 10)),
        digitChar_toNat (n % 10) hmod, List.length_append, List.length_singleton]
      congr 1
      rw [pow_succ]
      calc (acc * 10 ^ (natChars (n / 10)).length + n / 10) * 10 + (48 + n % 10 - 48)
          = acc * (10 ^ (natChars (n / 10)).length * 10) + (n / 10 * 10 + n % 10) := by
            have h48 : 48 + n % 10 - 48 = n % 10 := by omega
            rw [h48]; ring
        _ = acc * (10 ^ (natChars (n / 10)).length * 10) + n := by
            congr 1
            omega

theorem parseDigits_natChars (n : Nat) (rest : List Char) (h : noDigitHead rest = true) :
    parseDigits 0 (natChars n ++ rest) = (n, rest) := by
  rw [parseDigits_run, Nat.zero_mul, Nat.zero_add, parseDigits_stop n h]

theorem isDigit_ne {c x : Char} (h : c.isDigit = true) (hx : x.isDigit = false) :
    c ≠ x := by
  intro heq
  subst heq
  rw [h] at hx
  cases hx

theorem parseIntNum_intChars (i : Int) (rest : List Char) (h : noDigitHead rest = true) :
    parseIntNum (intChars i ++ rest) = some (i, rest) := by
  obtain ⟨c, t, hct, hc⟩ := natChars_cons i.natAbs
  have hrun := parseDigits_natChars i.natAbs rest h
  rw [hct, List.cons_append] at hrun
  by_cases hneg : i < 0
  · rw [show intChars i ++ rest = '-' :: (c :: (t ++ rest)) by
      simp [intChars, if_pos hneg, hct]]
    simp only [parseIntNum, if_pos rfl, hc, if_pos, hrun]
    have : ((i.natAbs : Int)) = -i := Int.ofNat_natAbs_of_nonpos (le_of_lt hneg)
    simp [this]
  · rw [show intChars i ++ rest = c :: (t ++ rest) by
      simp [intChars, if_neg hneg, hct]]
    have hcm : c ≠ '-' := isDigit_ne hc (by decide)
    simp only [parseIntNum, if_neg hcm, hc, if_pos, hrun]
    simp [Int.natAbs_of_nonneg (by omega : (0 : Int) ≤ i)]

theorem lhexChar_hexVal (d : Nat) (h : d < 16) : hexVal (lhexChar d) = some d := by
  interval_cases d <;> decide

/-- `parseStrBody` on a cons whose head is neither `"` nor `\`. -/
theorem parseStrBody_cons_plain {c : Char} (h1 : c ≠ '"') (h2 : c ≠ '\\')
    (rest : List Char) :
    parseStrBody (c :: rest)
      = if c.toNat < 32 then none
        else (parseStrBody rest).map fun p => (c :: p.1, p.2) := by
  rw [parseStrBody.eq_def]
  split <;> simp_all

/-- Decoding one escaped character prepends exactly that character. -/
theorem parseStrBody_escChar (c : Char) (rest : List Char) :
    parseStrBody (escChar c ++ rest)
      = (parseStrBody rest).map fun p => (c :: p.1, p.2) := by
  by_cases h1 : c = '"'
  · subst h1; simp [escChar, parseStrBody, unescChar]
  by_cases h2 : c = '\\'
  · subst h2; simp [escChar, parseStrBody, unescChar]
  by_cases h3 : c = '\n'
  · subst h3; simp [escChar, parseStrBody, unescChar]
  by_cases h4 : c = '\t'
  · subst h4; simp [escChar, parseStrBody, unescChar]
  by_cases h5 : c = '\r'
  · subst h5; simp [escChar, parseStrBody, unescChar]
  by_cases h6 : c = '\x08'
  · subst h6; simp [escChar, parseStrBody, unescChar]
  by_cases h7 : c = '\x0c'
  · subst h7; simp [escChar, parseStrBody, unescChar]
  by_cases h8 : c.toNat < 32
  · rw [show escChar c = ['\\', 'u', '0', '0', lhexChar (c.toNat / 16), lhexChar (c.toNat % 16)] by
      simp [escChar, h1, h2, h3, h4, h5, h6, h7, h8]]
    have hhi : hexVal (lhexChar (c.toNat / 16)) = some (c.toNat / 16) :=
      lhexChar_hexVal _ (by omega)
    have hlo : hexVal (lhexChar (c.toNat % 16)) = some (c.toNat % 16) :=
      lhexChar_hexVal _ (by omega)
    have h00 : hexVal '0' = some 0 := rfl
    have hcode : ((0 * 16 + 0) * 16 + c.toNat / 16) * 16 + c.toNat % 16 = c.toNat := by
      omega
    simp only [List.cons_append, List.nil_append, parseStrBody, h00, hhi, hlo,
      hcode, Char.ofNat_toNat]
    rfl
  · rw [show escChar c = [c] by simp [escChar, h1, h2, h3, h4, h5, h6, h7, h8],
      List.singleton_append, parseStrBody_cons_plain h1 h2, if_neg h8]

/-- Decoding an escaped string body stops exactly at the closing quote and
recovers the original characters. -/
theorem parseStrBody_escBody (cs : List Char) : ∀ rest : List Char,
    parseStrBody (escBody cs ++ '"' :: rest) = some (cs, rest) := by
  induction cs with
  | nil => intro rest; rfl
  | cons c cs ih =>
    intro rest
    rw [show escBody (c :: cs) = escChar c ++ escBody cs from rfl,
      List.append_assoc, parseStrBody_escChar, ih rest]
    rfl

theorem mk_data (s : String) : (⟨s.data⟩ : String) = s := rfl

theorem isDigit_skip {c : Char} (h : c.isDigit = true) :
    c ≠ 'n' ∧ c ≠ 't' ∧ c ≠ 'f' ∧ c ≠ '"' ∧ c ≠ '[' ∧ c ≠ '\x7b' :=
  ⟨isDigit_ne h (by decide), isDigit_ne h (by decide), isDigit_ne h (by decide),
   isDigit_ne h (by decide), isDigit_ne h (by decide), isDigit_ne h (by decide)⟩

/-- Every encoded value starts with a character, and that character closes
nothing (it is not `]`). -/
theorem jsonChars_head (v : JsValue) : ∃ c t, jsonChars v = c :: t ∧ c ≠ ']' := by
  cases v with
  | jnull => exact ⟨'n', _, rfl, by decide⟩
  | jbool b => cases b with
    | true => exact ⟨'t', _, rfl, by decide⟩
    | false => exact ⟨'f', _, rfl, by decide⟩
  | jstr s => exact ⟨'"', _, rfl, by decide⟩
  | jarr es => exact ⟨'[', _, rfl, by decide⟩
  | jobj fs => exact ⟨'\x7b', _, rfl, by decide⟩
  | jnum n =>
    by_cases hneg : n < 0
    · exact ⟨'-', natChars n.natAbs, by simp [jsonChars, intChars, hneg], by decide⟩
    · obtain ⟨c, t, hct, hc⟩ := natChars_cons n.natAbs
      exact ⟨c, t, by simp [jsonChars, intChars, hneg, hct], isDigit_ne hc (by decide)⟩

theorem jsonChars_length_pos (v : JsValue) : 1 ≤ (jsonChars v).length := by
  obtain ⟨c, t, hct, _⟩ := jsonChars_head v
  rw [hct]
  simp

theorem jsonCharsArr_shape (e : JsValue) (es : List JsValue) :
    ∃ u, jsonCharsArr (e :: es) = jsonChars e ++ u := by
  cases es with
  | nil => exact ⟨[], by simp [jsonCharsArr]⟩
  | cons x xs => exact ⟨',' :: jsonCharsArr (x :: xs), rfl⟩

mutual

theorem rtVal : ∀ (v : JsValue) (fuel : Nat) (rest : List Char),
    (jsonChars v).length < fuel → noDigitHead rest = true →
    parseVal fuel (jsonChars v ++ rest) = some (v, rest)
  | .jnull, fuel, rest, hf, _ => by
    cases fuel with
    | zero => exact absurd hf (Nat.not_lt_zero _)
    | succ f => rfl
  | .jbool true, fuel, rest, hf, _ => by
    cases fuel with
    | zero => exact absurd hf (Nat.not_lt_zero _)
    | succ f => rfl
  | .jbool false, fuel, rest, hf, _ => by
    cases fuel with
    | zero => exact absurd hf (Nat.not_lt_zero _)
    | succ f => rfl
  | .jnum n, fuel, rest, hf, hnd => by
    cases fuel with
    | zero => exact absurd hf (Nat.not_lt_zero _)
    | succ f =>
      have hi := parseIntNum_intChars n rest hnd
      by_cases hneg : n < 0
      · have hshape : jsonChars (.jnum n) ++ rest = '-' :: (natChars n.natAbs ++ rest) := by
          simp [jsonChars, intChars, hneg]
        have hi' : parseIntNum ('-' :: (natChars n.natAbs ++ rest)) = some (n, rest) := by
          rw [← hshape]; exact hi
        rw [hshape]
        simp [parseVal, hi']
      · obtain ⟨c, t, hct, hc⟩ := natChars_cons n.natAbs
        have hshape : jsonChars (.jnum n) ++ rest = c :: (t ++ rest) := by
          simp [jsonChars, intChars, hneg, hct]
        have hi' : parseIntNum (c :: (t ++ rest)) = some (n, rest) := by
          rw [← hshape]; exact hi
        obtain ⟨hn, ht, hf', hq, hbk, hbc⟩ := isDigit_skip hc
        rw [hshape]
        simp [parseVal, hn, ht, hf', hq, hbk, hbc, hc, hi']
  | .jstr s, fuel, rest, hf, _ => by
    cases fuel with
    | zero => exact absurd hf (Nat.not_lt_zero _)
    | succ f =>
      have hshape : jsonChars (.jstr s) ++ rest
          = '"' :: (escBody s.data ++ ('"' :: rest)) := by
        simp [jsonChars, strLit]
      rw [hshape]
      simp [parseVal, parseStrBody_escBody, mk_data]
  | .jarr [], fuel, rest, hf, _ => by
    cases fuel with
    | zero => exact absurd hf (Nat.not_lt_zero _)
    | succ f => rfl
  | .jarr (e :: es), fuel, rest, hf, _ => by
    cases fuel with
    | zero => exact absurd hf (Nat.not_lt_zero _)
    | succ f =>
      obtain ⟨c, t, hct, hcne⟩ := jsonChars_head e
      obtain ⟨u, hu⟩ := jsonCharsArr_shape e es
      have hlen : (jsonCharsArr (e :: es)).length + 1 < f := by
        simp only [jsonChars, List.length_cons, List.length_append,
          List.length_singleton] at hf
        omega
      have hshape : jsonChars (.jarr (e :: es)) ++ rest
          = '[' :: (jsonCharsArr (e :: es) ++ (']' :: rest)) := by
        simp [jsonChars]
      have hhead : (jsonCharsArr (e :: es) ++ (']' :: rest)).head? = some c := by
        rw [hu, hct]
        rfl
      have helems := rtElems e es f rest hlen
      rw [hshape]
      simp [parseVal, hhead, hcne, helems]
  | .jobj [], fuel, rest, hf, _ => by
    cases fuel with
    | zero => exact absurd hf (Nat.not_lt_zero _)
    | succ f => rfl
  | .jobj ((k, v) :: fs), fuel, rest, hf, _ => by
    cases fuel with
    | zero => exact absurd hf (Nat.not_lt_zero _)
    | succ f =>
      have hlen : (jsonCharsObj ((k, v) :: fs)).length + 1 < f := by
        simp only [jsonChars, List.length_cons, List.length_append,
          List.length_singleton] at hf
        omega
      have hshape : jsonChars (.jobj ((k, v) :: fs)) ++ rest
          = '\x7b' :: (jsonCharsObj ((k, v) :: fs) ++ ('\x7d' :: rest)) := by
        simp [jsonChars]
      have hhead : (jsonCharsObj ((k, v) :: fs) ++ ('\x7d' :: rest)).head? = some '"' := by
        cases fs <;> rfl
      have hfields := rtFields k v fs f rest hlen
      rw [hshape]
      simp [parseVal, hhead, hfields]
  termination_by v _ _ _ _ => sizeOf v

theorem rtElems : ∀ (e : JsValue) (es : List JsValue) (fuel : Nat) (rest : List Char),
    (jsonCharsArr (e :: es)).length + 1 < fuel →
    parseElems fuel (jsonCharsArr (e :: es) ++ ']' :: rest) = some (e :: es, rest)
  | e, [], fuel, rest, hf => by
    cases fuel with
    | zero => exact absurd hf (Nat.not_lt_zero _)
    | succ f =>
      have hone : jsonCharsArr [e] = jsonChars e := by simp [jsonCharsArr]
      rw [hone] at hf ⊢
      have hv := rtVal e f (']' :: rest) (by omega) rfl
      simp [parseElems, hv]
  | e, x :: xs, fuel, rest, hf => by
    cases fuel with
    | zero => exact absurd hf (Nat.not_lt_zero _)
    | succ f =>
      have hcons : jsonCharsArr (e :: x :: xs) = jsonChars e ++ ',' :: jsonCharsArr (x :: xs) :=
        rfl
      have hepos := jsonChars_length_pos e
      have hlen : (jsonCharsArr (x :: xs)).length + 1 < f := by
        rw [hcons] at hf
        simp only [List.length_append, List.length_cons] at hf
        omega
      have hv := rtVal e f (',' :: (jsonCharsArr (x :: xs) ++ ']' :: rest))
        (by rw [hcons] at hf; simp only [List.length_append, List.length_cons] at hf; omega)
        rfl
      have hrec := rtElems x xs f rest hlen
      rw [hcons, List.append_assoc, List.cons_append]
      simp [parseElems, hv, hrec]
  termination_by e es _ _ _ => sizeOf e + sizeOf es

theorem rtFields : ∀ (k : String) (v : JsValue) (fs : List (String × JsValue))
    (fuel : Nat) (rest : List Char),
    (jsonCharsObj ((k, v) :: fs)).length + 1 < fuel →
    parseFields fuel (jsonCharsObj ((k, v) :: fs) ++ '\x7d' :: rest)
      = some ((k, v) :: fs, rest)
  | k, v, [], fuel, rest, hf => by
    cases fuel with
    | zero => exact absurd hf (Nat.not_lt_zero _)
    | succ f =>
      have hone : jsonCharsObj [(k, v)] = strLit k ++ ':' :: jsonChars v := rfl
      have hlen : (jsonChars v).length < f := by
        rw [hone] at hf
        simp only [List.length_append, List.length_cons] at hf
        omega
      have hv := rtVal v f ('\x7d' :: rest) hlen rfl
      have hshape : jsonCharsObj [(k, v)] ++ '\x7d' :: rest
          = '"' :: (escBody k.data ++ ('"' :: (':' :: (jsonChars v ++ '\x7d' :: rest)))) := by
        simp [hone, strLit]
      rw [hshape]
      simp [parseFields, parseStrBody_escBody, hv, mk_data]
  | k, v, (k2, v2) :: fs2, fuel, rest, hf => by
    cases fuel with
    | zero => exact absurd hf (Nat.not_lt_zero _)
    | succ f =>
      have hcons : jsonCharsObj ((k, v) :: (k2, v2) :: fs2)
          = strLit k ++ ':' :: jsonChars v ++ ',' :: jsonCharsObj ((k2, v2) :: fs2) := rfl
      have hslen : 1 ≤ (strLit k).length := by simp [strLit]
      have hlen2 : (jsonCharsObj ((k2, v2) :: fs2)).length + 1 < f := by
        rw [hcons] at hf
        simp only [List.length_append, List.length_cons] at hf
        omega
      have hlenv : (jsonChars v).length < f := by
        rw [hcons] at hf
        simp only [List.length_append, List.length_cons] at hf
        omega
      have hv := rtVal v f (',' :: (jsonCharsObj ((k2, v2) :: fs2) ++ '\x7d' :: rest))
        hlenv rfl
      have hrec := rtFields k2 v2 fs2 f rest hlen2
      have hshape : jsonCharsObj ((k, v) :: (k2, v2) :: fs2) ++ '\x7d' :: rest
          = '"' :: (escBody k.data ++ ('"' :: (':' :: (jsonChars v
              ++ (',' :: (jsonCharsObj ((k2, v2) :: fs2) ++ '\x7d' :: rest)))))) := by
        simp [hcons, strLit]
      rw [hshape]
      simp [parseFields, parseStrBody_escBody, hv, hrec, mk_data]
  termination_by _ v fs _ _ _ => sizeOf v + sizeOf fs

end

/-- The JSON codec round-trip: decoding an encoded value gives it back.
This is the statement behind "structured values round-trip through
serialization/deserialization". -/
theorem jsonParse_stringify (v : JsValue) : jsonParse (jsonStringify v) = some v := by
  have h := rtVal v ((jsonChars v).length + 1) [] (by omega) rfl
  rw [List.append_nil] at h
  simp [jsonParse, jsonStringify, h]

/-! ## The cache (`BunCache`), modelled

The SQLite table `cache(key TEXT PRIMARY KEY, value TEXT, ttl INTEGER)` is an
association list from keys to rows; each operation additionally takes a
boolean saying whether its underlying storage call throws this time, so the
`try/catch` structure of the source is visible in the model. -/

/-- The result a JavaScript call hands its caller: a normal return value, or
an exception propagating out. -/
inductive Outcome (α : Type) where
  | ok (a : α)
  | exn
deriving Repr, DecidableEq

/-- One row of the `cache` table (the `CacheSchema` interface of the source,
minus the key, which the association list carries). `value` is the serialized
text or SQL `NULL`; `ttl` is the absolute expiration instant in milliseconds
or SQL `NULL`. -/
structure CacheRow where
  value : Option String
  ttl : Option Int
deriving Repr, DecidableEq

/-- The `cache` table. The key is unique because every write goes through
`INSERT OR REPLACE` (modelled as filter-out-then-cons). -/
abbrev Cache := List (String × CacheRow)

namespace BunCache

/-- The TTL test of `get`: `result.ttl === null || result.ttl > currentTime`. -/
def isLive (ttl : Option Int) (now : Int) : Bool :=
  match ttl with
  | none => true
  | some t => decide (t > now)

/-- `delete(key)`: `DELETE FROM cache WHERE key = ?` inside `try/catch`.
A storage failure (`fail = true`) is caught and turned into `false` with the
table untouched; otherwise every row with this key is removed and the call
returns `true`. -/
def delete (fail : Bool) (st : Cache) (key : String) : Outcome Bool × Cache :=
  if fail then (.ok false, st)
  else (.ok true, st.filter fun p => p.1 != key)

/-- `get(key)`. The `SELECT value, ttl` is **not** wrapped in `try/catch` in
the source, so a storage failure there (`readFail = true`) propagates as an
exception. Otherwise: no row → `null`; a row with SQL-`NULL` value → boolean
`true`; a live row → `JSON.parse` of the stored text, falling back to the raw
text when parsing throws; an expired row → `this.delete(key)` (whose own
storage oracle is `delFail`) and `null`. -/
def get (now : Int) (readFail delFail : Bool) (st : Cache) (key : String) :
    Outcome JsValue × Cache :=
  if readFail then (.exn, st)
  else
    match st.lookup key with
    | none => (.ok .jnull, st)
    | some row =>
      match row.value with
      | none => (.ok (.jbool true), st)
      | some text =>
        if isLive row.ttl now then
          match jsonParse text with
          | some j => (.ok j, st)
          | none => (.ok (.jstr text), st)
        else
          (.ok .jnull, (delete delFail st key).2)

/-- The serialized form `put` stores: `value ? JSON.stringify(value) : null`. -/
def serializeValue (v : JsValue) : Option String :=
  if v.truthy then some (jsonStringify v) else none

/-- `put(key, value, ttl?)`: computes the absolute expiration
`typeof ttl === "undefined" ? null : Date.now() + ttl` before the `try`
block, then `INSERT OR REPLACE` inside `try/catch`; a storage failure is
caught and turned into `false` with the table untouched. -/
def put (now : Int) (fail : Bool) (st : Cache) (key : String) (value : JsValue)
    (ttl : Option Int) : Outcome Bool × Cache :=
  let expirationTime := ttl.map fun t => now + t
  if fail then (.ok false, st)
  else
    (.ok true, (key, ⟨serializeValue value, expirationTime⟩)
      :: st.filter fun p => p.1 != key)

/-- `hasKey(key)`: `SELECT * … WHERE key = ?` inside `try/catch`; reports
whether a row exists, with no look at `ttl`; a storage failure is caught and
turned into `false`. -/
def hasKey (fail : Bool) (st : Cache) (key : String) : Outcome Bool × Cache :=
  if fail then (.ok false, st)
  else (.ok (st.lookup key).isSome, st)

end BunCache

/-! ### Association-list facts used by the claims -/

theorem lookup_cons_self (k : String) (r : CacheRow) (st : Cache) :
    ((k, r) :: st).lookup k = some r := by
  simp [List.lookup]

theorem lookup_filter_out (k : String) : ∀ st : Cache,
    (st.filter fun p => p.1 != k).lookup k = none := by
  intro st
  induction st with
  | nil => rfl
  | cons p st ih =>
    by_cases h : p.1 = k
    · simpa [List.filter, h] using ih
    · have hbne : (p.1 != k) = true := by simp [h]
      have hkp : (k == p.1) = false := by
        simp [BEq.beq]
        exact fun heq => h heq.symm
      simp [List.filter, hbne, List.lookup, hkp, ih]

theorem lookup_none_filter_id {k : String} : ∀ {st : Cache},
    st.lookup k = none → st.filter (fun p => p.1 != k) = st := by
  intro st
  induction st with
  | nil => intro _; rfl
  | cons p st ih =>
    intro h
    rw [List.lookup] at h
    match hkp : k == p.1 with
    | true => rw [hkp] at h; cases h
    | false =>
      rw [hkp] at h
      have hne : (p.1 != k) = true := by
        simp only [bne_iff_ne]
        intro heq
        rw [heq] at hkp
        simp at hkp
      simp [List.filter, hne, ih h]

/-! ## The claims -/

/-- C10 (implicit): a record whose stored value is SQL `NULL` is returned as
boolean `true` by `get` even when its `ttl` is already expired — the
null-value check precedes the TTL check, so `get` neither expires nor purges
such a record. -/
theorem C10_null_value_never_expires (st : Cache) (k : String) (row : CacheRow)
    (t now : Int) (hlk : st.lookup k = some row) (hval : row.value = none)
    (_httl : row.ttl = some t) (_hexp : t ≤ now) :
    BunCache.get now false false st k = (.ok (.jbool true), st) := by
  simp [BunCache.get, hlk, hval]

/-- C10 witness: a concrete null-valued row with `ttl = 5`, read at
`now = 10`, still yields boolean `true` and an unchanged table. -/
theorem C10_witness :
    BunCache.get 10 false false [("k", (⟨none, some 5⟩ : CacheRow))] "k"
      = (.ok (.jbool true), [("k", (⟨none, some 5⟩ : CacheRow))]) :=
  C10_null_value_never_expires _ "k" ⟨none, some 5⟩ 5 10 rfl rfl rfl (by decide)

/-- C3: `hasKey` performs no TTL check: a record that is expired
(`ttl ≤ now`) but still physically present reports `true`. -/
theorem C3_hasKey_ignores_ttl (st : Cache) (k : String) (row : CacheRow)
    (t now : Int) (hlk : st.lookup k = some row) (_httl : row.ttl = some t)
    (_hexp : t ≤ now) :
    (BunCache.hasKey false st k).1 = .ok true := by
  simp [BunCache.hasKey, hlk]

/-- C3 witness: a concrete expired-but-present row still reports `true`. -/
theorem C3_witness :
    (BunCache.hasKey false [("k", (⟨some "v", some 5⟩ : CacheRow))] "k").1 = .ok true :=
  C3_hasKey_ignores_ttl _ "k" ⟨some "v", some 5⟩ 5 10 rfl rfl (by decide)

/-- C4: after `put(k, null)` (no ttl), `get(k)` returns boolean `true` at
every later time — a presence marker distinct from the `null` of an absent
key. -/
theorem C4_put_null_get_true (st : Cache) (k : String) (w now : Int) :
    (BunCache.get now false false (BunCache.put w false st k .jnull none).2 k).1
      = .ok (.jbool true) := by
  simp [BunCache.put, BunCache.serializeValue, JsValue.truthy, BunCache.get,
    lookup_cons_self]

/-- C9 (implicit): `put(k, "")` stores SQL `NULL` (the serialization branch
tests JS truthiness and `""` is falsy), so it is indistinguishable from
`put(k, null)`, and a subsequent `get(k)` returns boolean `true` rather than
the empty string. -/
theorem C9_empty_string_is_null (st : Cache) (k : String) (w now : Int)
    (ttl : Option Int) (fail : Bool) :
    BunCache.put w fail st k (.jstr "") ttl = BunCache.put w fail st k .jnull ttl
      ∧ (BunCache.get now false false (BunCache.put w false st k (.jstr "") ttl).2 k).1
        = .ok (.jbool true) := by
  constructor
  · rfl
  · simp [BunCache.put, BunCache.serializeValue, JsValue.truthy, BunCache.get,
      lookup_cons_self]

/-- C6: deleting a nonexistent key is not an error: it returns `true` and
leaves the table exactly as it was; `delete` returns `false` only when the
underlying storage call itself fails. -/
theorem C6_delete_missing (st : Cache) (k : String) (hlk : st.lookup k = none) :
    BunCache.delete false st k = (.ok true, st)
      ∧ ∀ fail : Bool, (BunCache.delete fail st k).1 = .ok false → fail = true := by
  constructor
  · simp [BunCache.delete, lookup_none_filter_id hlk]
  · intro fail h
    cases fail with
    | true => rfl
    | false => simp [BunCache.delete] at h

/-- C6 witness: deleting the absent key `"k"` from a concrete one-row table
returns `true` and leaves the table unchanged. -/
theorem C6_witness :
    BunCache.delete false [("a", (⟨none, none⟩ : CacheRow))] "k"
        = (.ok true, [("a", (⟨none, none⟩ : CacheRow))])
      ∧ ∀ fail : Bool,
        (BunCache.delete fail [("a", (⟨none, none⟩ : CacheRow))] "k").1 = .ok false →
          fail = true :=
  C6_delete_missing _ "k" rfl

/-- C7: on a live row (ttl absent or still in the future) with non-`NULL`
stored text, `get` tries to decode the text as JSON; a decode failure is not
an error but a fallback to the raw text, and a decode success returns the
decoded value.  Either way the table is untouched. -/
theorem C7_decode_fallback (st : Cache) (k : String) (row : CacheRow)
    (text : String) (now : Int) (hlk : st.lookup k = some row)
    (hval : row.value = some text)
    (hlive : row.ttl = none ∨ ∃ t, row.ttl = some t ∧ now < t) :
    (jsonParse text = none →
        BunCache.get now false false st k = (.ok (.jstr text), st))
      ∧ ∀ j, jsonParse text = some j →
        BunCache.get now false false st k = (.ok j, st) := by
  have hlb : BunCache.isLive row.ttl now = true := by
    rcases hlive with h | ⟨t, ht, hlt⟩
    · simp [BunCache.isLive, h]
    · simp [BunCache.isLive, ht]
      omega
  constructor
  · intro hp
    simp [BunCache.get, hlk, hval, hlb, hp]
  · intro j hp
    simp [BunCache.get, hlk, hval, hlb, hp]

/-- C7 witness: the stored text `"plain"` is not valid JSON, and a concrete
`get` returns it unchanged. -/
theorem C7_witness :
    BunCache.get 0 false false [("k", (⟨some "plain", none⟩ : CacheRow))] "k"
      = (.ok (.jstr "plain"), [("k", (⟨some "plain", none⟩ : CacheRow))]) :=
  (C7_decode_fallback [("k", (⟨some "plain", none⟩ : CacheRow))] "k"
    ⟨some "plain", none⟩ "plain" 0 rfl rfl (Or.inl rfl)).1 rfl

/-- C5: a `put` on an existing key fully replaces the row — value and ttl
together; in particular `put(k,"a",1000)` then `put(k,"b")` (no ttl) makes
`get(k)` return `"b"` at every later time, with no trace of the original
1000 ms expiration. -/
theorem C5_put_replaces (st : Cache) (k : String) (r₀ : CacheRow) (v : JsValue)
    (t : Option Int) (w : Int) (_hlk : st.lookup k = some r₀) :
    ((BunCache.put w false st k v t).2).lookup k
        = some ⟨BunCache.serializeValue v, t.map fun d => w + d⟩
      ∧ ∀ w1 w2 now : Int, ∀ st₀ : Cache,
          (BunCache.get now false false
            (BunCache.put w2 false
              (BunCache.put w1 false st₀ k (.jstr "a") (some 1000)).2
              k (.jstr "b") none).2 k).1 = .ok (.jstr "b") := by
  constructor
  · simp [BunCache.put, lookup_cons_self]
  · intro w1 w2 now st₀
    simp [BunCache.put, BunCache.serializeValue, JsValue.truthy, BunCache.get,
      lookup_cons_self, BunCache.isLive, jsonParse_stringify]

/-- C5 witness: replacing the row under `"k"` in a concrete table stores the
new serialized value and the new absolute expiration `2 + 10 = 12`. -/
theorem C5_witness :
    ((BunCache.put 2 false [("k", (⟨none, none⟩ : CacheRow))] "k" (.jstr "b")
        (some 10)).2).lookup "k"
      = some ⟨BunCache.serializeValue (.jstr "b"), some 12⟩ :=
  (C5_put_replaces [("k", (⟨none, none⟩ : CacheRow))] "k" ⟨none, none⟩
    (.jstr "b") (some 10) 2 rfl).1

/-- C1 (counterexample): the claim quantifies over *every* value, but for
`v = null` (stored value SQL `NULL`) an expired `get` returns boolean `true`
instead of `null`, does not purge the row, and `hasKey` afterwards still
reports `true`: here `put("k", null, ttl = 0)` at time 0, read at time
`0 ≥ writeTime + ttl`. -/
theorem C1_counterexample :
    (BunCache.get 0 false false (BunCache.put 0 false [] "k" .jnull (some 0)).2 "k").1
        = .ok (.jbool true)
      ∧ (BunCache.get 0 false false (BunCache.put 0 false [] "k" .jnull (some 0)).2 "k").1
        ≠ .ok .jnull
      ∧ (BunCache.hasKey false
          (BunCache.get 0 false false (BunCache.put 0 false [] "k" .jnull (some 0)).2 "k").2
          "k").1 = .ok true := by
  refine ⟨rfl, ?_, rfl⟩
  intro h
  rw [show (BunCache.get 0 false false
      (BunCache.put 0 false [] "k" .jnull (some 0)).2 "k").1 = .ok (.jbool true)
    from rfl] at h
  simp at h

/-- C1 (amended): for every *truthy* value `v` (any non-empty string or any
structured value) and non-negative ttl `t`, after `put(k, v, t)` at time `w`:
a `get(k)` at `now ≥ w + t` returns `null`, purges the row, and an immediate
`hasKey(k)` then reports `false`; a `get(k)` at `now < w + t` returns `v`. -/
theorem C1_ttl_expiry_amended (st : Cache) (k : String) (v : JsValue)
    (w t now : Int) (hv : v.truthy = true) (_ht : 0 ≤ t) :
    (w + t ≤ now →
        (BunCache.get now false false (BunCache.put w false st k v (some t)).2 k).1
            = .ok .jnull
          ∧ ((BunCache.get now false false
              (BunCache.put w false st k v (some t)).2 k).2).lookup k = none
          ∧ (BunCache.hasKey false
              (BunCache.get now false false
                (BunCache.put w false st k v (some t)).2 k).2 k).1 = .ok false)
      ∧ (now < w + t →
          (BunCache.get now false false (BunCache.put w false st k v (some t)).2 k).1
            = .ok v) := by
  have hput : (BunCache.put w false st k v (some t)).2
      = (k, ⟨some (jsonStringify v), some (w + t)⟩)
        :: st.filter (fun p => p.1 != k) := by
    simp [BunCache.put, BunCache.serializeValue, hv]
  constructor
  · intro hexp
    have hdead : BunCache.isLive (some (w + t)) now = false := by
      simp [BunCache.isLive]
      omega
    rw [hput]
    have hget : BunCache.get now false false
        ((k, (⟨some (jsonStringify v), some (w + t)⟩ : CacheRow))
          :: st.filter (fun p => p.1 != k)) k
        = (.ok .jnull,
          ((k, (⟨some (jsonStringify v), some (w + t)⟩ : CacheRow))
            :: st.filter (fun p => p.1 != k)).filter (fun p => p.1 != k)) := by
      simp [BunCache.get, lookup_cons_self, hdead, BunCache.delete]
    rw [hget]
    exact ⟨rfl, lookup_filter_out k _, by simp [BunCache.hasKey, lookup_filter_out k]⟩
  · intro hlivec
    have hlive : BunCache.isLive (some (w + t)) now = true := by
      simp [BunCache.isLive]
      omega
    rw [hput]
    simp [BunCache.get, lookup_cons_self, hlive, jsonParse_stringify]

/-- C1 witness: `put("k", "a", ttl = 5)` at time 0; a `get` at time 7 returns
`null`, leaves no row, and `hasKey` right after reports `false`. -/
theorem C1_witness :
    (BunCache.get 7 false false
        (BunCache.put 0 false [] "k" (.jstr "a") (some 5)).2 "k").1 = .ok .jnull
      ∧ ((BunCache.get 7 false false
          (BunCache.put 0 false [] "k" (.jstr "a") (some 5)).2 "k").2).lookup "k" = none
      ∧ (BunCache.hasKey false
          (BunCache.get 7 false false
            (BunCache.put 0 false [] "k" (.jstr "a") (some 5)).2 "k").2 "k").1
        = .ok false :=
  (C1_ttl_expiry_amended [] "k" (.jstr "a") 0 5 7 rfl (by decide)).1 (by decide)

/-- C2 (counterexample): the claim quantifies over every string, but the
empty string is falsy, so `put("k", "")` stores SQL `NULL` and `get("k")`
returns boolean `true`, not a value deep-equal to `""`. -/
theorem C2_counterexample :
    (BunCache.get 0 false false
        (BunCache.put 0 false [] "k" (.jstr "") none).2 "k").1 = .ok (.jbool true)
      ∧ (BunCache.get 0 false false
          (BunCache.put 0 false [] "k" (.jstr "") none).2 "k").1 ≠ .ok (.jstr "") := by
  refine ⟨rfl, ?_⟩
  intro h
  rw [show (BunCache.get 0 false false
      (BunCache.put 0 false [] "k" (.jstr "") none).2 "k").1 = .ok (.jbool true)
    from rfl] at h
  simp at h

/-- C2 (amended): for every value of the `put` parameter type that is
*truthy* — every structured value and every non-empty string — `put(k, v)`
with no ttl followed by `get(k)` returns a value deep-equal (here: equal) to
`v`, by the serialization round-trip. -/
theorem C2_roundtrip_amended (st : Cache) (k : String) (v : JsValue) (w now : Int)
    (_harg : v.isPutArg = true) (hv : v.truthy = true) :
    (BunCache.get now false false (BunCache.put w false st k v none).2 k).1 = .ok v := by
  have hput : (BunCache.put w false st k v none).2
      = (k, ⟨some (jsonStringify v), none⟩) :: st.filter (fun p => p.1 != k) := by
    simp [BunCache.put, BunCache.serializeValue, hv]
  rw [hput]
  simp [BunCache.get, lookup_cons_self, BunCache.isLive, jsonParse_stringify]

/-- C2 witness: the spec scenario `put("x", ⦃a: 1⦄)` then `get("x")` returns
the structured value itself, not its serialized text. -/
theorem C2_witness :
    (BunCache.get 3 false false
        (BunCache.put 1 false [] "x" (.jobj [("a", .jnum 1)]) none).2 "x").1
      = .ok (.jobj [("a", .jnum 1)]) :=
  C2_roundtrip_amended [] "x" (.jobj [("a", .jnum 1)]) 1 3 rfl rfl

/-- C8 (counterexample): the claim says a storage failure in *every*
operation is caught and converted (`null` for `get`), but the lookup in
`get` is not inside any `try/catch`: a storage failure there propagates as
an exception, not `null`. -/
theorem C8_counterexample :
    (BunCache.get 0 true false [] "k").1 = .exn
      ∧ (BunCache.get 0 true false [] "k").1 ≠ .ok .jnull := by
  refine ⟨rfl, ?_⟩
  intro h
  rw [show (BunCache.get 0 true false [] "k").1 = .exn from rfl] at h
  simp at h

/-- C8 (amended): `put`, `delete` and `hasKey` catch storage failures and
return `false` (and `true`/the lookup result on success); `get` never throws
when its lookup succeeds (decode failures are swallowed), but a storage
failure in `get`'s own lookup propagates as an exception. -/
theorem C8_error_boundaries :
    (∀ (w : Int) (fail : Bool) (st : Cache) (k : String) (v : JsValue)
        (ttl : Option Int), (BunCache.put w fail st k v ttl).1 = .ok (!fail))
      ∧ (∀ (fail : Bool) (st : Cache) (k : String),
          (BunCache.delete fail st k).1 = .ok (!fail))
      ∧ (∀ (fail : Bool) (st : Cache) (k : String),
          (BunCache.hasKey fail st k).1 = .ok (!fail && (st.lookup k).isSome))
      ∧ (∀ (now : Int) (delFail : Bool) (st : Cache) (k : String),
          (BunCache.get now false delFail st k).1 ≠ .exn)
      ∧ (∀ (now : Int) (delFail : Bool) (st : Cache) (k : String),
          (BunCache.get now true delFail st k).1 = .exn) := by
  refine ⟨?_, ?_, ?_, ?_, ?_⟩
  · intro w fail st k v ttl
    cases fail <;> rfl
  · intro fail st k
    cases fail <;> rfl
  · intro fail st k
    cases fail <;> simp [BunCache.hasKey]
  · intro now delFail st k
    cases hlk : st.lookup k with
    | none => simp [BunCache.get, hlk]
    | some row =>
      cases hval : row.value with
      | none => simp [BunCache.get, hlk, hval]
      | some text =>
        by_cases hl : BunCache.isLive row.ttl now
        · cases hp : jsonParse text <;> simp [BunCache.get, hlk, hval, hl, hp]
        · simp [BunCache.get, hlk, hval, hl]
  · intro now delFail st k
    rfl

/-- C4 witness: a concrete `put("m", null)` then `get("m")` yields boolean
`true`. -/
theorem C4_witness :
    (BunCache.get 5 false false (BunCache.put 2 false [] "m" .jnull none).2 "m").1
      = .ok (.jbool true) :=
  C4_put_null_get_true [] "m" 2 5

/-- C9 witness: a concrete `put("e", "")` equals `put("e", null)` and reads
back as boolean `true`. -/
theorem C9_witness :
    BunCache.put 0 false [] "e" (.jstr "") none = BunCache.put 0 false [] "e" .jnull none
      ∧ (BunCache.get 1 false false (BunCache.put 0 false [] "e" (.jstr "") none).2 "e").1
        = .ok (.jbool true) :=
  C9_empty_string_is_null [] "e" 0 1 none false

/-- C8 witness: concrete storage failures are converted to `false` by `put`,
`delete` and `hasKey`; a concrete successful-lookup `get` does not throw;
a concrete failing-lookup `get` throws. -/
theorem C8_witness :
    (BunCache.put 0 true [] "k" .jnull none).1 = .ok false
      ∧ (BunCache.delete true [] "k").1 = .ok false
      ∧ (BunCache.hasKey true [] "k").1 = .ok false
      ∧ (BunCache.get 0 false false [] "k").1 ≠ .exn
      ∧ (BunCache.get 0 true false [] "k").1 = .exn :=
  ⟨C8_error_boundaries.1 0 true [] "k" .jnull none,
   C8_error_boundaries.2.1 true [] "k",
   C8_error_boundaries.2.2.1 true [] "k",
   C8_error_boundaries.2.2.2.1 0 false [] "k",
   C8_error_boundaries.2.2.2.2 0 false [] "k"⟩
